import Mathlib

/-!
Verification development for the rosbag2 record/replay engine.

The only source file present in this snapshot is the performance-worker
header `image_publisher.hpp`; the storage/compression/queue/writer/reader
pipeline itself is described by the specification but its code is not in
the snapshot, so those components are modelled from the spec (each such
definition says so in its doc comment).  Machine integers are embedded as
`Nat` with an explicit `% 2^32` wherever the C++ code computes in
`uint32_t`.
-/

/-- The modulus of C++ `uint32_t` arithmetic. -/
def UINT32_MOD : Nat := 4294967296

/-- Modelled from the spec: `SerializedMessage` (§3) — topic name, receive
timestamp (nanoseconds) and an opaque payload of bytes.  The serialization
format tag is irrelevant to the claims and omitted. -/
structure Msg where
  topic : String
  ts : Nat
  payload : List Nat
deriving DecidableEq, Repr

/-- The on-disk size of one serialized message (its payload length). -/
def msize (m : Msg) : Nat := m.payload.length

/-- The on-disk size of one Split: the sum of its messages' sizes. -/
def splitSize (s : List Msg) : Nat := (s.map msize).sum

/-- The duration covered by a Split: last timestamp minus first. -/
def splitDur (s : List Msg) : Nat :=
  ((s.getLast?.map Msg.ts).getD 0) - ((s.head?.map Msg.ts).getD 0)

/-- Modelled from the spec: the Sequential Writer's state (§4.4) — the
already sealed Splits plus the currently open Split. -/
structure WriterState where
  sealed : List (List Msg)
  cur : List Msg
deriving Repr

/-- Modelled from the spec: the rollover condition of §4.4 — current Split
size ≥ `max_bagfile_size` OR current Split duration ≥
`max_bagfile_duration`, a zero value disabling that bound. -/
def rollover (maxSize maxDur : Nat) (s : List Msg) : Bool :=
  (maxSize != 0 && decide (maxSize ≤ splitSize s)) ||
  (maxDur != 0 && decide (maxDur ≤ splitDur s))

/-- Modelled from the spec: one dequeued message handled by the Sequential
Writer (§4.4) — append the message to the current Split, then evaluate the
rollover condition; on rollover seal the current Split and open a fresh
one. -/
def wstep (maxSize maxDur : Nat) (st : WriterState) (m : Msg) : WriterState :=
  let cur' := st.cur ++ [m]
  if rollover maxSize maxDur cur' then
    ⟨st.sealed ++ [cur'], []⟩
  else
    ⟨st.sealed, cur'⟩

/-- Modelled from the spec: recording a whole message sequence (§4.4) —
drain the messages in arrival order through `wstep`, then `close` seals
the current Split, so the bag is the sealed Splits followed by the final
one. -/
def record (maxSize maxDur : Nat) (msgs : List Msg) : List (List Msg) :=
  let st := msgs.foldl (wstep maxSize maxDur) ⟨[], []⟩
  st.sealed ++ [st.cur]

/-- Modelled from the spec: the Sequential Reader (§4.5) — exhausts one
Split's messages before opening the next, so the produced stream is the
concatenation of the Splits' messages. -/
def readBagMsgs (splits : List (List Msg)) : List Msg := splits.flatten

/-- All messages held by a writer state, in write order. -/
def wcontent (st : WriterState) : List Msg := st.sealed.flatten ++ st.cur

theorem wcontent_foldl (maxSize maxDur : Nat) (msgs : List Msg)
    (st : WriterState) :
    wcontent (msgs.foldl (wstep maxSize maxDur) st) = wcontent st ++ msgs := by
  induction msgs generalizing st with
  | nil => simp
  | cons m rest ih =>
    rw [List.foldl_cons, ih]
    unfold wstep wcontent
    by_cases h : rollover maxSize maxDur (st.cur ++ [m]) = true
    · simp [h, List.flatten_append]
    · simp [h, List.append_assoc]

/-- Claim C1: round-trip identity.  For every message sequence M1..MN and
every writer configuration, a Reader over the bag produced by recording
that sequence returns exactly M1..MN in the same order, globally and per
topic (the Splits, being written in arrival order, concatenate back to
the arrival order). -/
theorem roundtrip_identity (maxSize maxDur : Nat) (msgs : List Msg) :
    readBagMsgs (record maxSize maxDur msgs) = msgs ∧
    ∀ tp : String,
      (readBagMsgs (record maxSize maxDur msgs)).filter (fun m => m.topic = tp)
        = msgs.filter (fun m => m.topic = tp) := by
  have h : readBagMsgs (record maxSize maxDur msgs) = msgs := by
    unfold record readBagMsgs
    have := wcontent_foldl maxSize maxDur msgs ⟨[], []⟩
    unfold wcontent at this
    simpa [List.flatten_append] using this
  exact ⟨h, fun tp => by rw [h]⟩

theorem splitSize_append (a b : List Msg) :
    splitSize (a ++ b) = splitSize a + splitSize b := by
  simp [splitSize]

/-- A sealed (non-final) Split of a size-bounded recording: its size
reached the bound, and exceeds it by less than the size of the message
that triggered the rollover. -/
def SealedOK (maxSize : Nat) (s : List Msg) : Prop :=
  maxSize ≤ splitSize s ∧ ∃ m ∈ s, splitSize s < maxSize + msize m

theorem wstep_pos (maxSize maxDur : Nat) (st : WriterState) (m : Msg)
    (h : rollover maxSize maxDur (st.cur ++ [m]) = true) :
    wstep maxSize maxDur st m = ⟨st.sealed ++ [st.cur ++ [m]], []⟩ := by
  unfold wstep
  rw [if_pos h]

theorem wstep_neg (maxSize maxDur : Nat) (st : WriterState) (m : Msg)
    (h : ¬ rollover maxSize maxDur (st.cur ++ [m]) = true) :
    wstep maxSize maxDur st m = ⟨st.sealed, st.cur ++ [m]⟩ := by
  unfold wstep
  rw [if_neg h]

theorem wstep_invariant (maxSize : Nat) (hS : 0 < maxSize)
    (msgs : List Msg) (st : WriterState)
    (hsealed : ∀ s ∈ st.sealed, SealedOK maxSize s)
    (hcur : splitSize st.cur < maxSize) :
    (∀ s ∈ (msgs.foldl (wstep maxSize 0) st).sealed, SealedOK maxSize s) ∧
    splitSize (msgs.foldl (wstep maxSize 0) st).cur < maxSize := by
  induction msgs generalizing st with
  | nil => exact ⟨hsealed, hcur⟩
  | cons m rest ih =>
    rw [List.foldl_cons]
    by_cases h : rollover maxSize 0 (st.cur ++ [m]) = true
    · rw [wstep_pos maxSize 0 st m h]
      refine ih _ ?_ ?_
      · intro s hs
        simp only [List.mem_append, List.mem_singleton] at hs
        rcases hs with hs | hs
        · exact hsealed s hs
        · subst hs
          have hge : maxSize ≤ splitSize (st.cur ++ [m]) := by
            unfold rollover at h
            simp only [Bool.or_eq_true, Bool.and_eq_true, bne_iff_ne,
              decide_eq_true_eq] at h
            rcases h with h | h
            · exact h.2
            · exact absurd h.1 (by simp)
          refine ⟨hge, m, by simp, ?_⟩
          rw [splitSize_append]
          have : splitSize [m] = msize m := by simp [splitSize]
          rw [this]
          omega
      · simpa [splitSize] using hS
    · rw [wstep_neg maxSize 0 st m h]
      refine ih _ hsealed ?_
      unfold rollover at h
      simp only [Bool.or_eq_true, Bool.and_eq_true, bne_iff_ne,
        decide_eq_true_eq, not_or, not_and] at h
      have := h.1 (by omega)
      rw [splitSize_append] at this
      have h1 : splitSize [m] = msize m := by simp [splitSize]
      rw [splitSize_append, h1]
      rw [h1] at this
      omega

theorem record_sealed_cur (maxSize maxDur : Nat) (msgs : List Msg) :
    record maxSize maxDur msgs =
      (msgs.foldl (wstep maxSize maxDur) ⟨[], []⟩).sealed ++
        [(msgs.foldl (wstep maxSize maxDur) ⟨[], []⟩).cur] := rfl

theorem record_no_rollover (msgs : List Msg) (st : WriterState) :
    (msgs.foldl (wstep 0 0) st).sealed = st.sealed := by
  induction msgs generalizing st with
  | nil => rfl
  | cons m rest ih =>
    rw [List.foldl_cons]
    unfold wstep rollover
    simp only [bne_self_eq_false, Bool.false_and, Bool.or_self, if_false]
    exact ih _

/-- Claim C3: rollover bound.  With `max_bagfile_size = S > 0` (and the
duration bound disabled), a recording whose cumulative message size
exceeds S produces at least two Splits; every Split except the last has
size ≥ S and < S plus the size of one of its messages (the one whose
write triggered the rollover); and S = 0 disables the bound, yielding a
single Split. -/
theorem rollover_bound (maxSize : Nat) (msgs : List Msg) :
    (0 < maxSize →
      (maxSize < splitSize msgs → 2 ≤ (record maxSize 0 msgs).length) ∧
      (∀ s ∈ (record maxSize 0 msgs).dropLast,
        maxSize ≤ splitSize s ∧ ∃ m ∈ s, splitSize s < maxSize + msize m)) ∧
    (record 0 0 msgs).length = 1 := by
  constructor
  · intro hS
    have hinv := wstep_invariant maxSize hS msgs ⟨[], []⟩
      (by intro s hs; simp at hs) (by simpa [splitSize] using hS)
    set st := msgs.foldl (wstep maxSize 0) ⟨[], []⟩ with hst
    constructor
    · intro htot
      rw [record_sealed_cur, ← hst]
      have hcontent : st.sealed.flatten ++ st.cur = msgs := by
        have := wcontent_foldl maxSize 0 msgs ⟨[], []⟩
        unfold wcontent at this
        simpa using this
      by_contra hlen
      push_neg at hlen
      have hnil : st.sealed = [] := by
        have hl : st.sealed.length = 0 := by
          simp only [List.length_append, List.length_singleton] at hlen
          omega
        exact List.eq_nil_of_length_eq_zero hl
      rw [hnil] at hcontent
      simp only [List.flatten_nil, List.nil_append] at hcontent
      rw [← hcontent] at htot
      have := hinv.2
      omega
    · intro s hs
      rw [record_sealed_cur, ← hst] at hs
      rw [List.dropLast_concat] at hs
      exact hinv.1 s hs
  · rw [record_sealed_cur, record_no_rollover]
    simp

/-- Witness for C3 at a concrete recording: bound 3, three messages of
size 2 each (total 6 > 3) produce two Splits, the first of size 4 with a
triggering message of size 2. -/
theorem rollover_bound_witness :
    (2 ≤ (record 3 0 [⟨"a", 0, [7, 7]⟩, ⟨"a", 1, [8, 8]⟩, ⟨"a", 2, [9, 9]⟩]).length) ∧
    (∀ s ∈ (record 3 0 [⟨"a", 0, [7, 7]⟩, ⟨"a", 1, [8, 8]⟩, ⟨"a", 2, [9, 9]⟩]).dropLast,
      3 ≤ splitSize s ∧ ∃ m ∈ s, splitSize s < 3 + msize m) := by
  have h := rollover_bound 3 [⟨"a", 0, [7, 7]⟩, ⟨"a", 1, [8, 8]⟩, ⟨"a", 2, [9, 9]⟩]
  exact ⟨(h.1 (by decide)).1 (by decide), (h.1 (by decide)).2⟩

/-- Modelled from the spec: an operation on the Message Queue (§4.3) — a
`push` from a subscription callback or a `pop_blocking` from the writer's
draining context.  A trace of operations records the order in which the
operations completed. -/
inductive QOp where
  | push (m : Msg)
  | pop
deriving Repr

/-- Modelled from the spec: the Message Queue's state — the buffered
entries in FIFO order, together with the messages already returned by
`pop_blocking`, in return order. -/
structure QState where
  queue : List Msg
  popped : List Msg
deriving Repr

/-- Modelled from the spec: executing one completed queue operation —
`push` appends at the tail; `pop_blocking` removes the head (when the
queue is empty the blocked pop has not completed, so it changes
nothing). -/
def qstep (st : QState) (op : QOp) : QState :=
  match op with
  | .push m => ⟨st.queue ++ [m], st.popped⟩
  | .pop =>
    match st.queue with
    | [] => st
    | m :: rest => ⟨rest, st.popped ++ [m]⟩

/-- Modelled from the spec: run a trace of completed queue operations
from the empty queue. -/
def runQueue (ops : List QOp) : QState := ops.foldl qstep ⟨[], []⟩

/-- The messages pushed by a trace, in push order. -/
def pushedOf (ops : List QOp) : List Msg :=
  ops.filterMap (fun op => match op with | .push m => some m | .pop => none)

theorem qstep_foldl (ops : List QOp) (st : QState) :
    (ops.foldl qstep st).popped ++ (ops.foldl qstep st).queue =
      st.popped ++ st.queue ++ pushedOf ops := by
  induction ops generalizing st with
  | nil => simp [pushedOf]
  | cons op rest ih =>
    rw [List.foldl_cons, ih]
    cases op with
    | push m => simp [qstep, pushedOf, List.append_assoc]
    | pop =>
      cases hq : st.queue with
      | nil => simp [qstep, hq, pushedOf]
      | cons m tail => simp [qstep, hq, pushedOf, List.append_assoc]

/-- Claim C4: Message Queue FIFO.  For every trace of completed push/pop
operations starting from the empty queue, the messages returned by
`pop_blocking` followed by the messages still buffered equal the pushed
messages in push order — so pop order equals push order globally across
all topics, and once the queue is drained the popped sequence is exactly
the push sequence. -/
theorem queue_fifo (ops : List QOp) :
    (runQueue ops).popped ++ (runQueue ops).queue = pushedOf ops ∧
    ((runQueue ops).queue = [] → (runQueue ops).popped = pushedOf ops) := by
  have h : (runQueue ops).popped ++ (runQueue ops).queue = pushedOf ops := by
    unfold runQueue
    simpa using qstep_foldl ops ⟨[], []⟩
  refine ⟨h, fun hd => ?_⟩
  rw [hd] at h
  simpa using h

/-- Witness for C4 at a concrete trace: push a, push b, pop, pop drains
the queue and returns [a, b], the push order. -/
theorem queue_fifo_witness :
    (runQueue [QOp.push ⟨"a", 0, [1]⟩, QOp.push ⟨"b", 1, [2]⟩, QOp.pop, QOp.pop]).popped
      = pushedOf [QOp.push ⟨"a", 0, [1]⟩, QOp.push ⟨"b", 1, [2]⟩, QOp.pop, QOp.pop] :=
  (queue_fifo [QOp.push ⟨"a", 0, [1]⟩, QOp.push ⟨"b", 1, [2]⟩, QOp.pop, QOp.pop]).2 rfl

/-- Modelled from the spec: a concrete lossless compressor for the
Compression Plugin Interface (§4.2).  The spec fixes only the contract
(lossless, order-preserving); we instantiate it with a run-length codec
over byte sequences: the compressed artifact is a list of
(run length, byte) pairs. -/
def compress : List Nat → List (Nat × Nat)
  | [] => []
  | a :: rest =>
    match compress rest with
    | [] => [(1, a)]
    | (n, b) :: t => if a = b then (n + 1, b) :: t else (1, a) :: (n, b) :: t

/-- Modelled from the spec: the matching decompressor — expand each run. -/
def decompress (art : List (Nat × Nat)) : List Nat :=
  (art.map (fun p => List.replicate p.1 p.2)).flatten

/-- Modelled from the spec: per-message compression (§4.2) — compress the
payload, leaving topic and timestamp untouched. -/
def compress_message (m : Msg) : String × Nat × List (Nat × Nat) :=
  (m.topic, m.ts, compress m.payload)

/-- Modelled from the spec: per-message decompression. -/
def decompress_message (c : String × Nat × List (Nat × Nat)) : Msg :=
  ⟨c.1, c.2.1, decompress c.2.2⟩

theorem decompress_compress (x : List Nat) : decompress (compress x) = x := by
  induction x with
  | nil => rfl
  | cons a rest ih =>
    cases hc : compress rest with
    | nil =>
      have hstep : compress (a :: rest) = [(1, a)] := by
        unfold compress
        rw [hc]
      rw [hc] at ih
      rw [hstep]
      simp only [decompress, List.map_cons, List.map_nil, List.flatten_cons,
        List.flatten_nil, List.append_nil, List.replicate_one]
      simp [decompress] at ih
      rw [← ih]
    | cons p t =>
      obtain ⟨n, b⟩ := p
      have hstep : compress (a :: rest) =
          if a = b then (n + 1, b) :: t else (1, a) :: (n, b) :: t := by
        unfold compress
        rw [hc]
      rw [hc] at ih
      rw [hstep]
      by_cases hab : a = b
      · subst hab
        rw [if_pos rfl]
        simp only [decompress, List.map_cons, List.flatten_cons] at ih ⊢
        rw [List.replicate_succ, List.cons_append, ih]
      · rw [if_neg hab]
        simp only [decompress, List.map_cons, List.flatten_cons] at ih ⊢
        rw [List.replicate_one, List.singleton_append, ih]

/-- Claim C2: compression is lossless and order-preserving.  For every
byte sequence x (whole-file granularity), decompress (compress x) = x
bit-exactly; at per-message granularity, decompressing each compressed
message of a sequence restores the original sequence — same length, same
order, no message dropped; and compress (decompress y) need not equal y
(witnessed by the artifact [(1,0),(1,0)], which re-compresses to
[(2,0)]). -/
theorem compression_lossless :
    (∀ x : List Nat, decompress (compress x) = x) ∧
    (∀ msgs : List Msg,
      (msgs.map compress_message).map decompress_message = msgs ∧
      (msgs.map compress_message).length = msgs.length) ∧
    ¬ (∀ y : List (Nat × Nat), compress (decompress y) = y) := by
  refine ⟨decompress_compress, fun msgs => ⟨?_, by simp⟩, ?_⟩
  · rw [List.map_map]
    have h : decompress_message ∘ compress_message = id := by
      funext m
      simp [decompress_message, compress_message, decompress_compress]
    rw [h, List.map_id]
  · intro h
    have := h [(1, 0), (1, 0)]
    simp [decompress, compress, List.replicate] at this

/-- Modelled from the spec: the error taxonomy of §7 (the members the
claims need). -/
inductive RErr where
  | storageWrite
  | storageRead
  | compression
  | metadataCorrupt
deriving DecidableEq, Repr

/-- Modelled from the spec: what the Reader finds for one Split during
playback — either the Split is unreadable (open/decompress failure), or
it yields a list of per-message read results, each of which may itself
fail to decompress. -/
abbrev ReadSplit : Type := Except RErr (List (Except RErr Msg))

/-- The messages of one readable Split that decode correctly, in order
(corrupt messages are skipped). -/
def collectMsgs (l : List (Except RErr Msg)) : List Msg :=
  l.filterMap Except.toOption

/-- The per-message errors reported while reading one readable Split. -/
def collectErrs (l : List (Except RErr Msg)) : List RErr :=
  l.filterMap (fun x => match x with | .error e => some e | .ok _ => none)

/-- Modelled from the spec: playback over a whole bag (§4.5, §7) — an
unreadable Split is reported and skipped, a corrupt message is reported
and skipped, and reading always continues with the rest of the bag; the
result is the pair (messages delivered, errors reported). -/
def readBag : List ReadSplit → List Msg × List RErr
  | [] => ([], [])
  | Except.error e :: rest =>
    let (ms, es) := readBag rest
    (ms, e :: es)
  | Except.ok s :: rest =>
    let (ms, es) := readBag rest
    (collectMsgs s ++ ms, collectErrs s ++ es)

/-- Modelled from the spec: writing a message sequence (§4.4, §7) — `f`
gives the storage/compression outcome of writing each message; the first
failing write is fatal: the Writer stops, surfaces the error, and no
later message is written.  The result is (messages actually persisted,
the fatal error if any). -/
def writeAll (f : Msg → Option RErr) : List Msg → List Msg × Option RErr
  | [] => ([], none)
  | m :: rest =>
    match f m with
    | some e => ([], some e)
    | none =>
      let (w, r) := writeAll f rest
      (m :: w, r)

/-- Modelled from the spec: the metadata descriptor a Reader opens —
reduced to the list of Split paths the claims need. -/
structure BagMetadata where
  relative_file_paths : List String
deriving DecidableEq, Repr

/-- Modelled from the spec: opening a logical bag (§4.5, §7) — a corrupt
metadata descriptor is always fatal, with no partial-bag inference;
otherwise the Reader is set up from the descriptor. -/
def openBag (md : Except RErr BagMetadata) : Except RErr BagMetadata :=
  match md with
  | Except.error e => Except.error e
  | Except.ok m => Except.ok m

theorem readBag_append (a b : List ReadSplit) :
    readBag (a ++ b) =
      ((readBag a).1 ++ (readBag b).1, (readBag a).2 ++ (readBag b).2) := by
  induction a with
  | nil => simp [readBag]
  | cons s rest ih =>
    cases s with
    | error e => simp [readBag, ih]
    | ok l => simp [readBag, ih]

/-- Claim C5: error-propagation asymmetry.  (read side) An unreadable
Split is reported and skipped and the rest of the bag is still read, and
a corrupt message inside a Split is likewise skipped without losing its
neighbours; (write side) the first failing write is fatal — exactly the
messages before it are persisted and the error is surfaced; (open) a
corrupt metadata descriptor always fails the open. -/
theorem error_propagation_asymmetry :
    (∀ (pre post : List ReadSplit) (e : RErr),
      (readBag (pre ++ Except.error e :: post)).1
          = (readBag pre).1 ++ (readBag post).1 ∧
        e ∈ (readBag (pre ++ Except.error e :: post)).2) ∧
    (∀ (a b : List (Except RErr Msg)) (e : RErr),
      collectMsgs (a ++ Except.error e :: b) = collectMsgs a ++ collectMsgs b ∧
        e ∈ collectErrs (a ++ Except.error e :: b)) ∧
    (∀ (f : Msg → Option RErr) (pre post : List Msg) (m : Msg) (e : RErr),
      (∀ x ∈ pre, f x = none) → f m = some e →
        writeAll f (pre ++ m :: post) = (pre, some e)) ∧
    (∀ e : RErr, ∀ md : Except RErr BagMetadata, md = Except.error e →
      openBag md = Except.error e) := by
  refine ⟨?_, ?_, ?_, ?_⟩
  · intro pre post e
    rw [readBag_append]
    constructor
    · simp [readBag]
    · simp [readBag]
  · intro a b e
    constructor
    · simp [collectMsgs, Except.toOption]
    · simp [collectErrs]
  · intro f pre post m e hpre hm
    induction pre with
    | nil => simp [writeAll, hm]
    | cons p rest ih =>
      have hp : f p = none := hpre p (by simp)
      have hrest : ∀ x ∈ rest, f x = none := fun x hx => hpre x (by simp [hx])
      simp only [List.cons_append, writeAll, hp, List.append_eq]
      rw [ih hrest]
  · intro e md hmd
    rw [hmd]
    rfl

/-- Witness for C5: a bag whose middle Split is unreadable still yields
the messages of the Splits around it with the error reported; a write
sequence whose second message fails persists only the first; opening a
corrupt descriptor fails. -/
theorem error_propagation_asymmetry_witness :
    ((readBag ([Except.ok [Except.ok ⟨"a", 0, [1]⟩]] ++
               Except.error RErr.storageRead ::
               [Except.ok [Except.ok ⟨"a", 2, [3]⟩]])).1
        = [⟨"a", 0, [1]⟩, ⟨"a", 2, [3]⟩] ∧
      RErr.storageRead ∈ (readBag ([Except.ok [Except.ok ⟨"a", 0, [1]⟩]] ++
               Except.error RErr.storageRead ::
               [Except.ok [Except.ok ⟨"a", 2, [3]⟩]])).2) ∧
    writeAll (fun m => if m.ts = 1 then some RErr.storageWrite else none)
        ([⟨"a", 0, [1]⟩] ++ (⟨"a", 1, [2]⟩ : Msg) :: [⟨"a", 2, [3]⟩])
      = ([⟨"a", 0, [1]⟩], some RErr.storageWrite) ∧
    openBag (Except.error RErr.metadataCorrupt)
      = Except.error RErr.metadataCorrupt := by
  have h := error_propagation_asymmetry
  refine ⟨?_, ?_, h.2.2.2 RErr.metadataCorrupt _ rfl⟩
  · have h1 := h.1 [Except.ok [Except.ok ⟨"a", 0, [1]⟩]]
      [Except.ok [Except.ok ⟨"a", 2, [3]⟩]] RErr.storageRead
    exact ⟨by rw [h1.1]; rfl, h1.2⟩
  · exact h.2.2.1 (fun m => if m.ts = 1 then some RErr.storageWrite else none)
      [⟨"a", 0, [1]⟩] [⟨"a", 2, [3]⟩] ⟨"a", 1, [2]⟩ RErr.storageWrite
      (by decide) (by decide)

/-- The recorded upper time bound of a Split: the maximum timestamp of
its messages (the spec's Split-local metadata, §3). -/
def splitMaxTs (s : List Msg) : Nat :=
  s.foldr (fun m a => max m.ts a) 0

/-- Modelled from the spec: `seek(timestamp)` (§4.5) — skip whole Splits
whose recorded upper bound lies strictly before the target, then scan
within the first remaining Split for the first message with timestamp ≥
target (inclusive comparison); the Splits after it are left untouched.
The result is the remaining Split sequence the Reader will deliver. -/
def seekSplits (t : Nat) : List (List Msg) → List (List Msg)
  | [] => []
  | s :: rest =>
    if splitMaxTs s < t then seekSplits t rest
    else s.dropWhile (fun m => m.ts < t) :: rest

theorem mem_ts_le_splitMaxTs (s : List Msg) (m : Msg) (hm : m ∈ s) :
    m.ts ≤ splitMaxTs s := by
  induction s with
  | nil => cases hm
  | cons a rest ih =>
    rcases List.mem_cons.mp hm with h | h
    · subst h
      exact le_max_left _ _
    · exact le_trans (ih h) (le_max_right _ _)

theorem splitMaxTs_cons (a : Msg) (l : List Msg) :
    splitMaxTs (a :: l) = max a.ts (splitMaxTs l) := rfl

theorem exists_ts_eq_splitMaxTs (a : Msg) (rest : List Msg) :
    ∃ m ∈ a :: rest, m.ts = splitMaxTs (a :: rest) := by
  induction rest generalizing a with
  | nil => exact ⟨a, by simp, by simp [splitMaxTs]⟩
  | cons b tail ih =>
    obtain ⟨m, hm, hmts⟩ := ih b
    rcases le_total a.ts (splitMaxTs (b :: tail)) with hle | hle
    · refine ⟨m, List.mem_cons_of_mem a hm, ?_⟩
      rw [hmts, splitMaxTs_cons a (b :: tail)]
      exact (max_eq_right hle).symm
    · refine ⟨a, by simp, ?_⟩
      rw [splitMaxTs_cons a (b :: tail)]
      exact (max_eq_left hle).symm

theorem dropWhile_append_all {α : Type} (p : α → Bool) (l₁ l₂ : List α)
    (h : ∀ x ∈ l₁, p x = true) :
    (l₁ ++ l₂).dropWhile p = l₂.dropWhile p := by
  induction l₁ with
  | nil => rfl
  | cons a rest ih =>
    rw [List.cons_append, List.dropWhile_cons]
    rw [h a (by simp)]
    simp only [if_true]
    exact ih (fun x hx => h x (by simp [hx]))

theorem dropWhile_append_stop {α : Type} (p : α → Bool) (l₁ l₂ : List α)
    (h : ¬ ∀ x ∈ l₁, p x = true) :
    (l₁ ++ l₂).dropWhile p = l₁.dropWhile p ++ l₂ := by
  induction l₁ with
  | nil => exact absurd (by intro x hx; cases hx) h
  | cons a rest ih =>
    rw [List.cons_append, List.dropWhile_cons, List.dropWhile_cons]
    by_cases hp : p a = true
    · rw [hp]
      simp only [if_true]
      by_cases hrest : ∀ x ∈ rest, p x = true
      · exact absurd (by
          intro x hx
          rcases List.mem_cons.mp hx with hxa | hxr
          · rw [hxa]; exact hp
          · exact hrest x hxr) h
      · exact ih hrest
    · rw [Bool.not_eq_true] at hp
      rw [hp]
      simp

theorem dropWhile_none {α : Type} (p : α → Bool) (l : List α)
    (h : ∀ x ∈ l, p x = false) :
    l.dropWhile p = l := by
  induction l with
  | nil => rfl
  | cons a rest ih =>
    rw [List.dropWhile_cons, h a (by simp)]
    simp only [Bool.false_eq_true, if_false]

theorem head_dropWhile_find {α : Type} (p : α → Bool) (l : List α) :
    (l.dropWhile p).head? = l.find? (fun x => ! p x) := by
  induction l with
  | nil => rfl
  | cons a rest ih =>
    rw [List.dropWhile_cons, List.find?_cons]
    by_cases hp : p a = true
    · rw [hp]
      simpa using ih
    · rw [Bool.not_eq_true] at hp
      rw [hp]
      simp

/-- Claim C6: seek semantics.  For every target t and every bag, the
stream delivered after `seekSplits t` is exactly the original merged
stream with the strict prefix of messages having timestamp < t removed
(inclusive ≥ comparison, so a message whose timestamp exactly equals a
Split's recorded bound is retained, the Split not being skipped), and
its first message is the first message of the bag whose timestamp is ≥
t. -/
theorem seek_first_ge (t : Nat) (splits : List (List Msg)) :
    (seekSplits t splits).flatten
        = splits.flatten.dropWhile (fun m => decide (m.ts < t)) ∧
    ((seekSplits t splits).flatten).head?
        = splits.flatten.find? (fun m => decide (t ≤ m.ts)) := by
  have hmain : (seekSplits t splits).flatten
      = splits.flatten.dropWhile (fun m => decide (m.ts < t)) := by
    induction splits with
    | nil => rfl
    | cons s rest ih =>
      rw [List.flatten_cons]
      unfold seekSplits
      by_cases hb : splitMaxTs s < t
      · rw [if_pos hb, ih]
        rw [dropWhile_append_all _ s _ ?_]
        intro m hm
        have := mem_ts_le_splitMaxTs s m hm
        simp only [decide_eq_true_eq]
        omega
      · rw [if_neg hb, List.flatten_cons]
        cases s with
        | nil =>
          push_neg at hb
          have ht : t = 0 := by
            have : splitMaxTs ([] : List Msg) = 0 := rfl
            omega
          subst ht
          rw [List.dropWhile_nil, List.nil_append]
          exact (dropWhile_none _ _ (fun x _ => by simp)).symm
        | cons a tail =>
          obtain ⟨m, hm, hmts⟩ := exists_ts_eq_splitMaxTs a tail
          rw [dropWhile_append_stop]
          intro hall
          have hlt := hall m hm
          push_neg at hb
          simp only [decide_eq_true_eq] at hlt
          omega
  refine ⟨hmain, ?_⟩
  rw [hmain, head_dropWhile_find]
  congr 1
  funext m
  rw [← decide_not]
  exact decide_eq_decide.mpr Nat.not_lt

/-- Modelled from the spec: the Player's timing formula (§4.7) — target
publish time = first-message-timestamp + (message-timestamp −
first-message-timestamp) / rate, computed over exact rationals. -/
def targetTime (t0 ts rate : ℚ) : ℚ := t0 + (ts - t0) / rate

/-- Claim C7: player timing.  The target publish time follows the §4.7
formula by definition; consequently at rate 1 the gap between the target
times of two messages equals their original timestamp gap, and at rate 2
it is exactly half that gap. -/
theorem player_timing (t0 a b : ℚ) :
    (∀ rate : ℚ, targetTime t0 a rate = t0 + (a - t0) / rate) ∧
    targetTime t0 b 1 - targetTime t0 a 1 = b - a ∧
    targetTime t0 b 2 - targetTime t0 a 2 = (b - a) / 2 := by
  refine ⟨fun rate => rfl, ?_, ?_⟩
  · unfold targetTime
    ring
  · unfold targetTime
    ring

/-!  The remaining claims concern `image_publisher.hpp`, the one source
file in the snapshot; the definitions below embed its code directly. -/

/-- Embeds `randomImageData` (image_publisher.hpp:15-22): a vector of
`size` bytes, each `std::rand() % 255`.  The successive values of
`std::rand()` are abstracted as the stream `rand`. -/
def randomImageData (rand : Nat → Nat) (size : Nat) : List Nat :=
  (List.range size).map (fun i => rand i % 255)

/-- Embeds the `ImagePublisher` node's parameter fields and its random
generator stream (`dt`, `delay` and `benchmark_path` do not affect the
claims' observables).  `dimensions` and `max_count` are `uint32_t`
parameter values, hence < 2^32. -/
structure ImagePublisher where
  dimensions : Nat
  max_count : Nat
  rand : Nat → Nat

/-- Embeds the constructor's buffer initialisation
(image_publisher.hpp:54): `random_image_data = randomImageData(dimensions
* 4 * dimensions)`, the size computed in `uint32_t` arithmetic. -/
def random_image_data (node : ImagePublisher) : List Nat :=
  randomImageData node.rand (node.dimensions * 4 * node.dimensions % UINT32_MOD)

/-- Embeds `sensor_msgs::msg::Image` as the fields `timer_callback`
assigns. -/
structure Image where
  frame_id : String
  stamp : Nat
  encoding : String
  height : Nat
  width : Nat
  step : Nat
  data : List Nat
deriving DecidableEq, Repr

/-- Embeds the message construction in `timer_callback`
(image_publisher.hpp:68-78): all fields are derived from the node's
constructor-time state, except the header stamp, which is the clock
reading of this call.  The `uint32_t` casts of `height`/`width`/`step`
wrap mod 2^32. -/
def timer_callback_message (node : ImagePublisher) (now : Nat) : Image :=
  { frame_id := "image_frame"
    stamp := now
    encoding := "rgba8"
    height := node.dimensions % UINT32_MOD
    width := node.dimensions % UINT32_MOD
    step := node.dimensions * 4 % UINT32_MOD
    data := random_image_data node }

/-- Claim C9: for every rand stream and every size s,
`randomImageData s` has exactly s bytes, each in 0..254 — the value 255
is never produced, since each byte is `rand % 255`. -/
theorem randomImageData_bytes (rand : Nat → Nat) (s : Nat) :
    (randomImageData rand s).length = s ∧
    ∀ b ∈ randomImageData rand s, b ≤ 254 ∧ b ≠ 255 := by
  constructor
  · simp [randomImageData]
  · intro b hb
    simp only [randomImageData, List.mem_map] at hb
    obtain ⟨i, _, hi⟩ := hb
    have : rand i % 255 < 255 := Nat.mod_lt _ (by omega)
    omega

/-- Witness for C9 at the concrete stream fun i => i * 77 and size 5:
the byte 154 produced at index 2 is within 0..254 and differs from
255. -/
theorem randomImageData_bytes_witness :
    (randomImageData (fun i => i * 77) 5).length = 5 ∧
    (154 ≤ 254 ∧ 154 ≠ 255) :=
  ⟨(randomImageData_bytes (fun i => i * 77) 5).1,
   (randomImageData_bytes (fun i => i * 77) 5).2 154 (by decide)⟩

/-- Claim C10: every Image message published by `ImagePublisher` is
self-consistent and constant: height = width = dimensions, step =
dimensions * 4 and data.size = step * height (both in the `uint32_t`
arithmetic the C++ code computes them in), encoding = "rgba8", frame_id =
"image_frame", and the payload is the identical constructor-time buffer
on every publish (only the header stamp varies between calls). -/
theorem image_message_invariants (node : ImagePublisher)
    (h : node.dimensions < UINT32_MOD) (now now' : Nat) :
    (timer_callback_message node now).height = node.dimensions ∧
    (timer_callback_message node now).width = node.dimensions ∧
    (timer_callback_message node now).step = node.dimensions * 4 % UINT32_MOD ∧
    (timer_callback_message node now).data.length =
      (timer_callback_message node now).step *
        (timer_callback_message node now).height % UINT32_MOD ∧
    (timer_callback_message node now).encoding = "rgba8" ∧
    (timer_callback_message node now).frame_id = "image_frame" ∧
    (timer_callback_message node now).data = random_image_data node ∧
    (timer_callback_message node now').data = (timer_callback_message node now).data := by
  have hd : node.dimensions % UINT32_MOD = node.dimensions := Nat.mod_eq_of_lt h
  refine ⟨by simp [timer_callback_message, hd], by simp [timer_callback_message, hd],
    rfl, ?_, rfl, rfl, rfl, rfl⟩
  show (random_image_data node).length = _
  have hlen : (random_image_data node).length =
      node.dimensions * 4 * node.dimensions % UINT32_MOD := by
    unfold random_image_data
    exact (randomImageData_bytes node.rand _).1
  rw [hlen]
  show _ = node.dimensions * 4 % UINT32_MOD * (node.dimensions % UINT32_MOD) % UINT32_MOD
  rw [hd, Nat.mod_mul_mod]

/-- Witness for C10 at a concrete node with dimensions 2. -/
theorem image_message_invariants_witness :
    (timer_callback_message ⟨2, 100, fun i => i⟩ 5).height = 2 ∧
    (timer_callback_message ⟨2, 100, fun i => i⟩ 5).width = 2 ∧
    (timer_callback_message ⟨2, 100, fun i => i⟩ 5).step = 2 * 4 % UINT32_MOD ∧
    (timer_callback_message ⟨2, 100, fun i => i⟩ 5).data.length =
      (timer_callback_message ⟨2, 100, fun i => i⟩ 5).step *
        (timer_callback_message ⟨2, 100, fun i => i⟩ 5).height % UINT32_MOD ∧
    (timer_callback_message ⟨2, 100, fun i => i⟩ 5).encoding = "rgba8" ∧
    (timer_callback_message ⟨2, 100, fun i => i⟩ 5).frame_id = "image_frame" ∧
    (timer_callback_message ⟨2, 100, fun i => i⟩ 5).data
      = random_image_data ⟨2, 100, fun i => i⟩ ∧
    (timer_callback_message ⟨2, 100, fun i => i⟩ 9).data
      = (timer_callback_message ⟨2, 100, fun i => i⟩ 5).data :=
  image_message_invariants ⟨2, 100, fun i => i⟩ (by decide) 5 9

/-- Embeds the process-wide state relevant to `timer_callback`
(image_publisher.hpp:64-88): `current_msg_count` is declared `static`
inside the member function, so it has one instance for the whole process,
shared by every `ImagePublisher` object; the flag records whether
`rclcpp::shutdown()` has been invoked. -/
structure ProcState where
  current_msg_count : Nat
  shutdown_requested : Bool
deriving DecidableEq, Repr

/-- Embeds the counting/shutdown tail of `timer_callback`
(image_publisher.hpp:82-85): `if (++current_msg_count == max_count)`
increments the shared `uint32_t` counter (wrapping mod 2^32) and invokes
`rclcpp::shutdown()` on equality with the instance's `max_count`. -/
def timer_callback_counter (node : ImagePublisher) (s : ProcState) : ProcState :=
  ⟨(s.current_msg_count + 1) % UINT32_MOD,
   s.shutdown_requested ||
     ((s.current_msg_count + 1) % UINT32_MOD == node.max_count)⟩

/-- Runs a sequence of timer callbacks; each trace entry records which
`ImagePublisher` instance the callback belonged to. -/
def runTimerCallbacks (trace : List ImagePublisher) (s : ProcState) : ProcState :=
  trace.foldl (fun st n => timer_callback_counter n st) s

theorem runTimerCallbacks_cons (n : ImagePublisher)
    (rest : List ImagePublisher) (s : ProcState) :
    runTimerCallbacks (n :: rest) s
      = runTimerCallbacks rest (timer_callback_counter n s) := rfl

theorem runTimerCallbacks_foldl (m : Nat) (trace : List ImagePublisher)
    (s : ProcState)
    (hmc : ∀ n ∈ trace, n.max_count = m)
    (hlen : s.current_msg_count + trace.length < UINT32_MOD) :
    (runTimerCallbacks trace s).current_msg_count
        = s.current_msg_count + trace.length ∧
    ((runTimerCallbacks trace s).shutdown_requested = true ↔
      s.shutdown_requested = true ∨
        (s.current_msg_count < m ∧ m ≤ s.current_msg_count + trace.length)) := by
  induction trace generalizing s with
  | nil =>
    refine ⟨by simp [runTimerCallbacks], ?_⟩
    simp only [runTimerCallbacks, List.foldl_nil, List.length_nil, Nat.add_zero]
    constructor
    · exact fun hb => Or.inl hb
    · rintro (hb | ⟨h1, h2⟩)
      · exact hb
      · omega
  | cons n rest ih =>
    have hm : n.max_count = m := hmc n (by simp)
    have hc : (s.current_msg_count + 1) % UINT32_MOD = s.current_msg_count + 1 :=
      Nat.mod_eq_of_lt (by simp only [List.length_cons] at hlen; omega)
    have hstate : timer_callback_counter n s
        = ⟨s.current_msg_count + 1,
           s.shutdown_requested || (s.current_msg_count + 1 == m)⟩ := by
      unfold timer_callback_counter
      rw [hc, hm]
    rw [runTimerCallbacks_cons, hstate]
    obtain ⟨ihc, ihs⟩ := ih ⟨s.current_msg_count + 1,
        s.shutdown_requested || (s.current_msg_count + 1 == m)⟩
      (fun x hx => hmc x (by simp [hx]))
      (by simp only [List.length_cons] at hlen; simpa using (by omega :
        s.current_msg_count + 1 + rest.length < UINT32_MOD))
    refine ⟨?_, ?_⟩
    · rw [ihc]
      simp only [List.length_cons]
      omega
    · rw [ihs]
      simp only [Bool.or_eq_true, beq_iff_eq, List.length_cons]
      constructor
      · rintro ((hb | heq) | ⟨h1, h2⟩)
        · exact Or.inl hb
        · exact Or.inr ⟨by omega, by omega⟩
        · exact Or.inr ⟨by omega, by omega⟩
      · rintro (hb | ⟨h1, h2⟩)
        · exact Or.inl (Or.inl hb)
        · by_cases hqe : s.current_msg_count + 1 = m
          · exact Or.inl (Or.inr hqe)
          · exact Or.inr ⟨by omega, by omega⟩

/-- Claim C8: `current_msg_count` is a function-local static, so it is
one counter for the whole process, shared by every `ImagePublisher`
instance.  For any trace of timer callbacks distributed across any
instances that share the parameter `max_count = m`, `rclcpp::shutdown()`
is invoked exactly when the combined number of callbacks reaches m —
independently of how the callbacks are distributed over instances, so it
is not m publishes per instance. -/
theorem shared_static_counter (m : Nat) (trace : List ImagePublisher)
    (hmc : ∀ n ∈ trace, n.max_count = m)
    (hlen : trace.length < UINT32_MOD) :
    (runTimerCallbacks trace ⟨0, false⟩).shutdown_requested = true ↔
      0 < m ∧ m ≤ trace.length := by
  have h := runTimerCallbacks_foldl m trace ⟨0, false⟩ hmc (by simpa using hlen)
  rw [h.2]
  simp

/-- Witness for C8: two distinct instances with max_count = 2 performing
one callback each trigger shutdown, although neither instance alone
reached 2 publishes. -/
theorem shared_static_counter_witness :
    (runTimerCallbacks [⟨100, 2, fun _ => 0⟩, ⟨200, 2, fun _ => 0⟩]
        ⟨0, false⟩).shutdown_requested = true :=
  (shared_static_counter 2 [⟨100, 2, fun _ => 0⟩, ⟨200, 2, fun _ => 0⟩]
    (by intro n hn; fin_cases hn <;> rfl)
    (by decide)).mpr ⟨by decide, by decide⟩

/-- Witness for C1 at a concrete two-topic recording with rollover
bound 2: the Reader returns the five messages in push order. -/
theorem roundtrip_identity_witness :
    readBagMsgs (record 2 0
        [⟨"a", 0, [1]⟩, ⟨"b", 1, [2]⟩, ⟨"a", 2, [3]⟩, ⟨"b", 3, [4]⟩, ⟨"a", 4, [5]⟩])
      = [⟨"a", 0, [1]⟩, ⟨"b", 1, [2]⟩, ⟨"a", 2, [3]⟩, ⟨"b", 3, [4]⟩, ⟨"a", 4, [5]⟩] :=
  (roundtrip_identity 2 0
    [⟨"a", 0, [1]⟩, ⟨"b", 1, [2]⟩, ⟨"a", 2, [3]⟩, ⟨"b", 3, [4]⟩, ⟨"a", 4, [5]⟩]).1

/-- Witness for C2 at a concrete byte sequence: the round trip restores
it exactly. -/
theorem compression_lossless_witness :
    decompress (compress [9, 9, 9, 4, 4, 7]) = [9, 9, 9, 4, 4, 7] :=
  compression_lossless.1 [9, 9, 9, 4, 4, 7]

/-- Witness for C6 at a concrete two-Split bag and target 3, which
equals the first Split's recorded bound: the tying message survives and
is the first returned. -/
theorem seek_first_ge_witness :
    (seekSplits 3 [[⟨"a", 1, []⟩, ⟨"a", 3, []⟩], [⟨"a", 5, []⟩]]).flatten.head?
      = ([[⟨"a", 1, []⟩, ⟨"a", 3, []⟩], [⟨"a", 5, []⟩]] :
          List (List Msg)).flatten.find? (fun m => decide (3 ≤ m.ts)) :=
  (seek_first_ge 3 [[⟨"a", 1, []⟩, ⟨"a", 3, []⟩], [⟨"a", 5, []⟩]]).2

/-- Witness for C7 at t0 = 0 and timestamps 10 and 30: the target-time
gap is 20 at rate 1 and 10 at rate 2. -/
theorem player_timing_witness :
    targetTime 0 30 1 - targetTime 0 10 1 = (30 : ℚ) - 10 ∧
    targetTime 0 30 2 - targetTime 0 10 2 = ((30 : ℚ) - 10) / 2 :=
  ⟨(player_timing 0 10 30).2.1, (player_timing 0 10 30).2.2⟩
